import Mathlib

/-!
Verification development for the `ConnectionPool` / `BaseDatabaseManager`
layer of the DatabaseFrame repository.

The pool bookkeeping (`src/Base/BaseDatabaseManager.cpp`) is embedded
shallowly: the `QHash`/`QSet`/`QQueue` members become association lists and
plain lists over `String` keys, every pool method becomes a pure state
transformer, and the outcome of each native database call (open, begin,
commit, rollback, VACUUM, ...) is supplied as an explicit boolean oracle
argument.
-/

set_option maxHeartbeats 1000000

/-- Association-list lookup, mirroring `QHash::value` / `QHash::contains`
(first entry with the key wins). -/
def lookupA {α : Type} : List (String × α) → String → Option α
  | [], _ => none
  | (k2, v) :: rest, k => if k2 = k then some v else lookupA rest k

/-- Embeds `QHash::value(key, default)`. -/
def lookupD {α : Type} (m : List (String × α)) (k : String) (d : α) : α :=
  (lookupA m k).getD d

/-- Remove every entry with the given key (`QHash::remove`). -/
def eraseKey {α : Type} : List (String × α) → String → List (String × α)
  | [], _ => []
  | (k2, v) :: rest, k =>
      if k2 = k then eraseKey rest k else (k2, v) :: eraseKey rest k

/-- Embeds `QHash::insert`: bind the key to the value, dropping any previous binding. -/
def insertA {α : Type} (m : List (String × α)) (k : String) (v : α) :
    List (String × α) :=
  (k, v) :: eraseKey m k

/-- Keep only the entries whose key satisfies the predicate. -/
def filterKeys {α : Type} (f : String → Bool) :
    List (String × α) → List (String × α)
  | [] => []
  | (k, v) :: rest =>
      if f k then (k, v) :: filterKeys f rest else filterKeys f rest

/-- Embeds `QHash::operator[]`: default-inserts an empty queue when the key is absent. -/
def ensureKey (m : List (String × List String)) (k : String) :
    List (String × List String) :=
  match lookupA m k with
  | some _ => m
  | none => (k, []) :: m

/-- Append one element to the queue stored at a key (`m[k].enqueue(v)`). -/
def enqueueA (m : List (String × List String)) (k : String) (v : String) :
    List (String × List String) :=
  insertA m k (lookupD m k [] ++ [v])

/-- Embeds `QSet::insert` on a duplicate-free list. -/
def insertSet (x : String) (l : List String) : List String :=
  if x ∈ l then l else x :: l

/-- Embeds `QSet::remove`: drop the first occurrence of an element. -/
def removeFirst : List String → String → List String
  | [], _ => []
  | y :: rest, x => if y = x then rest else y :: removeFirst rest x

/-- Total number of idle connections: the sum over all per-thread queues. -/
def sumAvail : List (String × List String) → Nat
  | [] => 0
  | p :: rest => p.2.length + sumAvail rest

theorem lookupA_eraseKey_self {α : Type} (m : List (String × α)) (k : String) :
    lookupA (eraseKey m k) k = none := by
  induction m with
  | nil => rfl
  | cons p rest ih =>
      obtain ⟨k2, v⟩ := p
      by_cases h : k2 = k
      · simp [eraseKey, h, ih]
      · simp [eraseKey, lookupA, h, ih]

theorem lookupA_eraseKey_ne {α : Type} (m : List (String × α)) {k k2 : String}
    (h : k2 ≠ k) : lookupA (eraseKey m k) k2 = lookupA m k2 := by
  induction m with
  | nil => rfl
  | cons p rest ih =>
      obtain ⟨k3, v⟩ := p
      by_cases h3 : k3 = k
      · subst h3
        simp [eraseKey, lookupA, Ne.symm h, ih]
      · simp only [eraseKey, if_neg h3, lookupA]
        by_cases h4 : k3 = k2
        · simp [h4]
        · simp [h4, ih]

theorem eraseKey_lookupA_none {α : Type} {m : List (String × α)} {k : String}
    (h : lookupA m k = none) : eraseKey m k = m := by
  induction m with
  | nil => rfl
  | cons p rest ih =>
      obtain ⟨k2, v⟩ := p
      simp only [lookupA] at h
      by_cases h2 : k2 = k
      · simp [h2] at h
      · simp only [if_neg h2] at h
        simp [eraseKey, h2, ih h]

theorem lookupA_insertA_self {α : Type} (m : List (String × α)) (k : String)
    (v : α) : lookupA (insertA m k v) k = some v := by
  simp [insertA, lookupA]

theorem lookupA_insertA_ne {α : Type} (m : List (String × α)) {k k2 : String}
    (v : α) (h : k2 ≠ k) : lookupA (insertA m k v) k2 = lookupA m k2 := by
  simp [insertA, lookupA, Ne.symm h, lookupA_eraseKey_ne m h]

theorem lookupA_filterKeys_true {α : Type} (m : List (String × α))
    {f : String → Bool} {k : String} (h : f k = true) :
    lookupA (filterKeys f m) k = lookupA m k := by
  induction m with
  | nil => rfl
  | cons p rest ih =>
      obtain ⟨k2, v⟩ := p
      by_cases h2 : k2 = k
      · subst h2
        simp [filterKeys, h, lookupA]
      · by_cases hf : f k2
        · simp [filterKeys, hf, lookupA, h2, ih]
        · simp [filterKeys, hf, lookupA, h2, ih]

theorem lookupA_filterKeys_false {α : Type} (m : List (String × α))
    {f : String → Bool} {k : String} (h : f k = false) :
    lookupA (filterKeys f m) k = none := by
  induction m with
  | nil => rfl
  | cons p rest ih =>
      obtain ⟨k2, v⟩ := p
      by_cases h2 : k2 = k
      · subst h2
        simp [filterKeys, h, ih]
      · by_cases hf : f k2
        · simp [filterKeys, hf, lookupA, h2, ih]
        · simp [filterKeys, hf, ih]

theorem sumAvail_eraseKey_le (m : List (String × List String)) (k : String) :
    sumAvail (eraseKey m k) ≤ sumAvail m := by
  induction m with
  | nil => simp [eraseKey]
  | cons p rest ih =>
      obtain ⟨k2, v⟩ := p
      by_cases h : k2 = k
      · simp only [eraseKey, if_pos h, sumAvail]
        omega
      · simp only [eraseKey, if_neg h, sumAvail]
        omega

theorem lookupA_sum_bound {m : List (String × List String)} {k : String}
    {l : List String} (h : lookupA m k = some l) :
    l.length + sumAvail (eraseKey m k) ≤ sumAvail m := by
  induction m with
  | nil => simp [lookupA] at h
  | cons p rest ih =>
      obtain ⟨k2, v⟩ := p
      simp only [lookupA] at h
      by_cases h2 : k2 = k
      · simp only [if_pos h2] at h
        have hv : v = l := by injection h
        subst hv
        simp only [eraseKey, if_pos h2, sumAvail]
        have := sumAvail_eraseKey_le rest k
        omega
      · simp only [if_neg h2] at h
        simp only [eraseKey, if_neg h2, sumAvail]
        have := ih h
        omega

theorem sumAvail_insertA (m : List (String × List String)) (k : String)
    (v : List String) :
    sumAvail (insertA m k v) = v.length + sumAvail (eraseKey m k) := by
  simp [insertA, sumAvail]

theorem sumAvail_filterKeys_le (f : String → Bool)
    (m : List (String × List String)) :
    sumAvail (filterKeys f m) ≤ sumAvail m := by
  induction m with
  | nil => simp [filterKeys]
  | cons p rest ih =>
      obtain ⟨k, v⟩ := p
      by_cases h : f k
      · simp only [filterKeys, if_pos h, sumAvail]
        omega
      · simp only [filterKeys, if_neg h, sumAvail]
        omega

theorem sumAvail_ensureKey (m : List (String × List String)) (k : String) :
    sumAvail (ensureKey m k) = sumAvail m := by
  unfold ensureKey
  cases h : lookupA m k with
  | some v => rfl
  | none => simp [sumAvail]

theorem sumAvail_enqueueA_le (m : List (String × List String)) (k v : String) :
    sumAvail (enqueueA m k v) ≤ sumAvail m + 1 := by
  unfold enqueueA
  rw [sumAvail_insertA]
  cases h : lookupA m k with
  | some l =>
      have hb := lookupA_sum_bound h
      simp only [lookupD, h, Option.getD]
      simp only [List.length_append, List.length_cons, List.length_nil]
      omega
  | none =>
      rw [eraseKey_lookupA_none h]
      simp only [lookupD, h, Option.getD]
      simp only [List.nil_append, List.length_cons, List.length_nil]
      omega

theorem lookupA_enqueueA_ne (m : List (String × List String)) {k k2 : String}
    (v : String) (h : k2 ≠ k) : lookupA (enqueueA m k v) k2 = lookupA m k2 := by
  simp [enqueueA, lookupA_insertA_ne m _ h]

theorem lookupD_enqueueA_self (m : List (String × List String)) (k v : String) :
    lookupD (enqueueA m k v) k [] = lookupD m k [] ++ [v] := by
  simp [enqueueA, lookupD, lookupA_insertA_self]

theorem lookupA_ensureKey_ne (m : List (String × List String)) {k k2 : String}
    (h : k2 ≠ k) : lookupA (ensureKey m k) k2 = lookupA m k2 := by
  unfold ensureKey
  cases hl : lookupA m k with
  | some v => rfl
  | none => simp [lookupA, Ne.symm h]

theorem length_insertSet_le (x : String) (l : List String) :
    (insertSet x l).length ≤ l.length + 1 := by
  unfold insertSet
  by_cases h : x ∈ l
  · simp [h]
  · simp [h]

theorem mem_insertSet_self (x : String) (l : List String) : x ∈ insertSet x l := by
  unfold insertSet
  by_cases h : x ∈ l
  · simp [h]
  · simp [h]

theorem length_removeFirst_le (l : List String) (x : String) :
    (removeFirst l x).length ≤ l.length := by
  induction l with
  | nil => simp [removeFirst]
  | cons y rest ih =>
      by_cases h : y = x
      · simp only [removeFirst, if_pos h, List.length_cons]
        omega
      · simp only [removeFirst, if_neg h, List.length_cons]
        omega

theorem length_removeFirst_of_mem {l : List String} {x : String} (h : x ∈ l) :
    (removeFirst l x).length + 1 = l.length := by
  induction l with
  | nil => simp at h
  | cons y rest ih =>
      by_cases h2 : y = x
      · simp [removeFirst, h2]
      · have hx : x ∈ rest := by
          rcases List.mem_cons.mp h with h3 | h3
          · exact absurd h3.symm h2
          · exact h3
        simp only [removeFirst, if_neg h2, List.length_cons]
        have := ih hx
        omega

theorem removeFirst_insertSet_of_not_mem {l : List String} {x : String}
    (h : x ∉ l) : removeFirst (insertSet x l) x = l := by
  simp [insertSet, h, removeFirst]

/-!
Pool state (`ConnectionPool` members, `BaseDatabaseManager.h` lines 25-49)

 * `used`       — `m_usedConnections : QSet<QString>`
 * `avail`      — `m_availableByThread : QHash<QString, QQueue<QString>>`
 * `connOwner`  — `m_connOwner : QHash<QString, QString>`
 * `activeTx`   — `m_activeTxByThread : QHash<QString, QString>`
 * `threadRefs` — `m_threadRefs : QHash<QString, QPointer<QThread>>`, where a
   stored `QPointer` is modelled by the boolean "still alive" (it nulls out
   when the thread object is destroyed)
 * `counter`    — `m_connectionCounter`
-/
structure PoolState where
  used : List String
  avail : List (String × List String)
  connOwner : List (String × String)
  activeTx : List (String × String)
  threadRefs : List (String × Bool)
  counter : Nat
deriving DecidableEq

/-- The pool as constructed: every container empty, counter zero. -/
def initialPoolState : PoolState :=
  { used := [], avail := [], connOwner := [], activeTx := [], threadRefs := [],
    counter := 0 }

/-- A thread-id is stale when its recorded liveness reference has expired
(`it.value().isNull()` over `m_threadRefs`). -/
def isStale (s : PoolState) (tid : String) : Bool :=
  match lookupA s.threadRefs tid with
  | some alive => !alive
  | none => false

/-- Embeds `ConnectionPool::cleanupFinishedThreads` (BaseDatabaseManager.cpp 11-26):
for every stale thread-id, discard its idle queue and drop its
`m_availableByThread`, `m_activeTxByThread` and `m_threadRefs` entries. -/
def cleanupFinishedThreads (s : PoolState) : PoolState :=
  { s with
    avail := filterKeys (fun k => !(isStale s k)) s.avail
    activeTx := filterKeys (fun k => !(isStale s k)) s.activeTx
    threadRefs := filterKeys (fun k => !(isStale s k)) s.threadRefs }

/-- Embeds `ConnectionPool::totalConnectionsUnsafe` (BaseDatabaseManager.h 45-49):
in-use count plus the sum of all per-thread idle queues. -/
def totalConnections (s : PoolState) : Nat :=
  s.used.length + sumAvail s.avail

/-- The connection name generated by `createConnectionInCurrentThread`
(prefix, thread id and counter value); always non-empty. -/
def mkConnName (tid : String) (n : Nat) : String :=
  "conn_" ++ tid ++ "_" ++ toString n

/-- Embeds `ConnectionPool::acquireConnection` (BaseDatabaseManager.cpp 45-74).
`openOk` is the outcome of `db.open()` inside
`createConnectionInCurrentThread`; `mc` is `m_config.maxConnections`. -/
def acquireConnection (tid : String) (openOk : Bool) (mc : Nat)
    (s : PoolState) : String × PoolState :=
  let s1 := cleanupFinishedThreads s
  let s2 := { s1 with threadRefs := insertA s1.threadRefs tid true }
  match lookupA s2.activeTx tid with
  | some name => (name, s2)
  | none =>
    let s3 := { s2 with avail := ensureKey s2.avail tid }
    match lookupA s3.avail tid with
    | some (name :: rest) =>
        (name, { s3 with avail := insertA s3.avail tid rest,
                         used := insertSet name s3.used })
    | _ =>
        if mc ≤ totalConnections s3 then ("", s3)
        else
          let cname := mkConnName tid (s3.counter + 1)
          let s4 := { s3 with counter := s3.counter + 1 }
          if openOk then
            (cname, { s4 with connOwner := insertA s4.connOwner cname tid,
                              used := insertSet cname s4.used })
          else ("", s4)

/-- Embeds `ConnectionPool::releaseConnection` (BaseDatabaseManager.cpp 76-88).
`tid` is the calling thread (`currentTid()`), the default owner when the
connection has no `m_connOwner` entry. -/
def releaseConnection (tid name : String) (s : PoolState) : PoolState :=
  let s1 := cleanupFinishedThreads s
  if name ∈ s1.used then
    let owner := lookupD s1.connOwner name tid
    if lookupD s1.activeTx owner "" = name then s1
    else
      { s1 with used := removeFirst s1.used name,
                avail := enqueueA s1.avail owner name }
  else s1

/-- Embeds `ConnectionPool::forceCloseIdleConnections` (BaseDatabaseManager.cpp
90-102): dequeue-and-close every idle connection of every thread, returning
how many were closed. -/
def forceCloseIdleConnections (s : PoolState) : Nat × PoolState :=
  (sumAvail s.avail, { s with avail := s.avail.map (fun p => (p.1, [])) })

/-- Embeds `ConnectionPool::availableCount` (BaseDatabaseManager.cpp 104-112). -/
def availableCount (s : PoolState) : Nat := sumAvail s.avail

/-- Embeds `ConnectionPool::usedCount` (BaseDatabaseManager.cpp 114-117). -/
def usedCount (s : PoolState) : Nat := s.used.length

/-- The slot-acquisition phase of `ConnectionPool::beginThreadTransaction`
(BaseDatabaseManager.cpp 194-207): dequeue from the caller's idle queue, or
create a new connection when under the cap. -/
def beginAcquireSlot (tid : String) (openOk : Bool) (mc : Nat)
    (s : PoolState) : String × PoolState :=
  let s1 := { s with avail := ensureKey s.avail tid }
  match lookupA s1.avail tid with
  | some (name :: rest) =>
      (name, { s1 with avail := insertA s1.avail tid rest,
                       used := insertSet name s1.used })
  | _ =>
      if mc ≤ totalConnections s1 then ("", s1)
      else
        let cname := mkConnName tid (s1.counter + 1)
        let s2 := { s1 with counter := s1.counter + 1 }
        if openOk then
          (cname, { s2 with connOwner := insertA s2.connOwner cname tid,
                            used := insertSet cname s2.used })
        else ("", s2)

/-- Embeds `ConnectionPool::beginThreadTransaction` (BaseDatabaseManager.cpp
187-222). `txOk` is the combined outcome of `db.isOpen() && db.transaction()`
on the acquired connection. -/
def beginThreadTransaction (tid : String) (openOk txOk : Bool) (mc : Nat)
    (s : PoolState) : String × PoolState :=
  match lookupA s.activeTx tid with
  | some name => (name, s)
  | none =>
    let p := beginAcquireSlot tid openOk mc s
    if p.1 = "" then ("", p.2)
    else if txOk then
      (p.1, { p.2 with activeTx := insertA p.2.activeTx tid p.1 })
    else
      ("", { p.2 with used := removeFirst p.2.used p.1,
                      avail := enqueueA p.2.avail tid p.1 })

/-- Embeds `ConnectionPool::commitThreadTransaction` (BaseDatabaseManager.cpp
224-237). `commitOk` is the outcome of `db.commit()`. -/
def commitThreadTransaction (tid : String) (commitOk : Bool)
    (s : PoolState) : Bool × PoolState :=
  let name := lookupD s.activeTx tid ""
  let s1 := { s with activeTx := eraseKey s.activeTx tid }
  if name = "" then (false, s1)
  else (commitOk, releaseConnection tid name s1)

/-- Embeds `ConnectionPool::rollbackThreadTransaction` (BaseDatabaseManager.cpp
239-251). `rollbackOk` is the outcome of `db.rollback()`. -/
def rollbackThreadTransaction (tid : String) (rollbackOk : Bool)
    (s : PoolState) : Bool × PoolState :=
  let name := lookupD s.activeTx tid ""
  let s1 := { s with activeTx := eraseKey s.activeTx tid }
  if name = "" then (false, s1)
  else (rollbackOk, releaseConnection tid name s1)

/-- Environment step: the `QThread` object of a thread-id is destroyed, so
its `QPointer` entry in `m_threadRefs` nulls out. -/
def markThreadDead (tid : String) (s : PoolState) : PoolState :=
  { s with threadRefs :=
      s.threadRefs.map (fun p => if p.1 = tid then (p.1, false) else p) }

/-- One pool operation, tagged with the issuing thread and the outcomes of
the native calls it performs. -/
inductive PoolOp where
  | acquire (tid : String) (openOk : Bool)
  | release (tid name : String)
  | beginTx (tid : String) (openOk txOk : Bool)
  | commitTx (tid : String) (commitOk : Bool)
  | rollbackTx (tid : String) (rollbackOk : Bool)
  | forceCloseIdle
  | killThread (tid : String)

/-- Interpret one pool operation as a state transition. -/
def applyOp (mc : Nat) (s : PoolState) : PoolOp → PoolState
  | .acquire tid oOk => (acquireConnection tid oOk mc s).2
  | .release tid name => releaseConnection tid name s
  | .beginTx tid oOk tOk => (beginThreadTransaction tid oOk tOk mc s).2
  | .commitTx tid ok => (commitThreadTransaction tid ok s).2
  | .rollbackTx tid ok => (rollbackThreadTransaction tid ok s).2
  | .forceCloseIdle => (forceCloseIdleConnections s).2
  | .killThread tid => markThreadDead tid s

/-- Run a whole sequence of pool operations from a starting state. -/
def runOps (mc : Nat) (ops : List PoolOp) (s : PoolState) : PoolState :=
  ops.foldl (applyOp mc) s

theorem cleanup_used (s : PoolState) :
    (cleanupFinishedThreads s).used = s.used := rfl

theorem cleanup_connOwner (s : PoolState) :
    (cleanupFinishedThreads s).connOwner = s.connOwner := rfl

theorem cleanup_total_le (s : PoolState) :
    totalConnections (cleanupFinishedThreads s) ≤ totalConnections s := by
  unfold totalConnections cleanupFinishedThreads
  simp only
  have := sumAvail_filterKeys_le (fun k => !(isStale s k)) s.avail
  omega

theorem acquire_total_le {s : PoolState} {mc : Nat} (tid : String) (oOk : Bool)
    (h : totalConnections s ≤ mc) :
    totalConnections (acquireConnection tid oOk mc s).2 ≤ mc := by
  have hc := cleanup_total_le s
  unfold acquireConnection
  dsimp only
  split
  · simp only [totalConnections] at *
    omega
  · split
    · next name rest heq =>
      have hb := lookupA_sum_bound heq
      simp only [totalConnections, sumAvail_ensureKey, sumAvail_insertA,
        List.length_cons] at *
      have hi := length_insertSet_le name (cleanupFinishedThreads s).used
      omega
    · split
      · next hcap =>
        simp only [totalConnections, sumAvail_ensureKey] at *
        omega
      · next hcap =>
        simp only [totalConnections, sumAvail_ensureKey] at *
        split
        · have hi := length_insertSet_le
            (mkConnName tid ((cleanupFinishedThreads s).counter + 1))
            (cleanupFinishedThreads s).used
          simp only [totalConnections, sumAvail_ensureKey] at *
          omega
        · simp only [totalConnections, sumAvail_ensureKey] at *
          omega

theorem mkConnName_ne_empty (tid : String) (n : Nat) : mkConnName tid n ≠ "" := by
  intro h
  have h2 : (mkConnName tid n).length = 0 := by rw [h]; rfl
  unfold mkConnName at h2
  rw [String.length_append, String.length_append, String.length_append] at h2
  have h3 : ("conn_" : String).length = 5 := rfl
  omega

theorem beginAcquireSlot_total_le {s : PoolState} {mc : Nat} (tid : String)
    (oOk : Bool) (h : totalConnections s ≤ mc) :
    totalConnections (beginAcquireSlot tid oOk mc s).2 ≤ mc := by
  unfold beginAcquireSlot
  dsimp only
  split
  · next name rest heq =>
    have hb := lookupA_sum_bound heq
    simp only [totalConnections, sumAvail_ensureKey, sumAvail_insertA,
      List.length_cons] at *
    have hi := length_insertSet_le name s.used
    omega
  · split
    · simp only [totalConnections, sumAvail_ensureKey] at *
      omega
    · next hcap =>
      simp only [totalConnections, sumAvail_ensureKey] at *
      split
      · have hi := length_insertSet_le (mkConnName tid (s.counter + 1)) s.used
        simp only [totalConnections, sumAvail_ensureKey] at *
        omega
      · simp only [totalConnections, sumAvail_ensureKey] at *
        omega

theorem beginAcquireSlot_spec (tid : String) (oOk : Bool) (mc : Nat)
    (s : PoolState) :
    (beginAcquireSlot tid oOk mc s).2.activeTx = s.activeTx ∧
    (beginAcquireSlot tid oOk mc s).2.threadRefs = s.threadRefs ∧
    ((beginAcquireSlot tid oOk mc s).1 ≠ "" →
      (beginAcquireSlot tid oOk mc s).2.used =
        insertSet (beginAcquireSlot tid oOk mc s).1 s.used) := by
  unfold beginAcquireSlot
  dsimp only
  split
  · exact ⟨rfl, rfl, fun _ => rfl⟩
  · split
    · exact ⟨rfl, rfl, fun h => absurd rfl h⟩
    · split
      · exact ⟨rfl, rfl, fun _ => rfl⟩
      · exact ⟨rfl, rfl, fun h => absurd rfl h⟩

theorem release_total_le (tid name : String) (s : PoolState) :
    totalConnections (releaseConnection tid name s) ≤ totalConnections s := by
  have hc := cleanup_total_le s
  unfold releaseConnection
  dsimp only
  by_cases hmem : name ∈ (cleanupFinishedThreads s).used
  · simp only [if_pos hmem]
    by_cases htx :
        lookupD (cleanupFinishedThreads s).activeTx
          (lookupD (cleanupFinishedThreads s).connOwner name tid) "" = name
    · simp only [if_pos htx]
      exact hc
    · simp only [if_neg htx]
      have hr := length_removeFirst_of_mem hmem
      have he := sumAvail_enqueueA_le (cleanupFinishedThreads s).avail
        (lookupD (cleanupFinishedThreads s).connOwner name tid) name
      simp only [totalConnections] at *
      omega
  · simp only [if_neg hmem]
    exact hc

theorem begin_total_le {s : PoolState} {mc : Nat} (tid : String)
    (oOk tOk : Bool) (h : totalConnections s ≤ mc) :
    totalConnections (beginThreadTransaction tid oOk tOk mc s).2 ≤ mc := by
  have hb := beginAcquireSlot_total_le (s := s) tid oOk h
  have hs := beginAcquireSlot_spec tid oOk mc s
  unfold beginThreadTransaction
  dsimp only
  split
  · exact h
  · by_cases hname : (beginAcquireSlot tid oOk mc s).1 = ""
    · simp only [if_pos hname]
      exact hb
    · simp only [if_neg hname]
      by_cases htx : tOk = true
      · simp only [if_pos htx]
        simp only [totalConnections] at *
        omega
      · simp only [if_neg htx]
        have hmem : (beginAcquireSlot tid oOk mc s).1 ∈
            (beginAcquireSlot tid oOk mc s).2.used := by
          rw [hs.2.2 hname]
          exact mem_insertSet_self _ _
        have hr := length_removeFirst_of_mem hmem
        have he := sumAvail_enqueueA_le (beginAcquireSlot tid oOk mc s).2.avail
          tid (beginAcquireSlot tid oOk mc s).1
        simp only [totalConnections] at *
        omega

theorem commit_total_le (tid : String) (ok : Bool) (s : PoolState) :
    totalConnections (commitThreadTransaction tid ok s).2 ≤
      totalConnections s := by
  unfold commitThreadTransaction
  dsimp only
  split
  · simp only [totalConnections]
    omega
  · have := release_total_le tid (lookupD s.activeTx tid "")
      { s with activeTx := eraseKey s.activeTx tid }
    simp only [totalConnections] at *
    omega

theorem rollback_total_le (tid : String) (ok : Bool) (s : PoolState) :
    totalConnections (rollbackThreadTransaction tid ok s).2 ≤
      totalConnections s := by
  unfold rollbackThreadTransaction
  dsimp only
  split
  · simp only [totalConnections]
    omega
  · have := release_total_le tid (lookupD s.activeTx tid "")
      { s with activeTx := eraseKey s.activeTx tid }
    simp only [totalConnections] at *
    omega

theorem sumAvail_map_empty (m : List (String × List String)) :
    sumAvail (m.map (fun p => (p.1, []))) = 0 := by
  induction m with
  | nil => rfl
  | cons p rest ih => simp [sumAvail, ih]

theorem applyOp_total_le {s : PoolState} {mc : Nat} (op : PoolOp)
    (h : totalConnections s ≤ mc) :
    totalConnections (applyOp mc s op) ≤ mc := by
  cases op with
  | acquire tid oOk => exact acquire_total_le tid oOk h
  | release tid name => exact le_trans (release_total_le tid name s) h
  | beginTx tid oOk tOk => exact begin_total_le tid oOk tOk h
  | commitTx tid ok => exact le_trans (commit_total_le tid ok s) h
  | rollbackTx tid ok => exact le_trans (rollback_total_le tid ok s) h
  | forceCloseIdle =>
      simp only [applyOp, forceCloseIdleConnections, totalConnections,
        sumAvail_map_empty] at *
      omega
  | killThread tid =>
      simp only [applyOp, markThreadDead, totalConnections] at *
      omega

theorem runOps_total_le {mc : Nat} (ops : List PoolOp) :
    ∀ s : PoolState, totalConnections s ≤ mc →
      totalConnections (runOps mc ops s) ≤ mc := by
  induction ops with
  | nil => intro s h; exact h
  | cons op rest ih =>
      intro s h
      have h2 := applyOp_total_le op h
      simpa [runOps, List.foldl] using ih (applyOp mc s op) h2

/-- Claim C1: for every sequence of pool operations
(`acquireConnection`, `releaseConnection`, `beginThreadTransaction`,
`commitThreadTransaction`, `rollbackThreadTransaction`,
`forceCloseIdleConnections`, plus thread termination) issued by any number of
threads and any outcomes of the native calls, the size of the in-use set plus
the sum of the sizes of all per-thread idle queues never exceeds the
configured `maxConnections`. -/
theorem C1_pool_capacity (ops : List PoolOp) (mc : Nat) :
    totalConnections (runOps mc ops initialPoolState) ≤ mc := by
  have h0 : totalConnections initialPoolState ≤ mc := by
    simp [initialPoolState, totalConnections, sumAvail]
  exact runOps_total_le ops initialPoolState h0

theorem lookupA_cleanup_avail {s : PoolState} {t : String}
    (h : isStale s t = false) :
    lookupA (cleanupFinishedThreads s).avail t = lookupA s.avail t := by
  unfold cleanupFinishedThreads
  exact lookupA_filterKeys_true _ (by simp [h])

theorem lookupA_cleanup_avail_stale {s : PoolState} {t : String}
    (h : isStale s t = true) :
    lookupA (cleanupFinishedThreads s).avail t = none := by
  unfold cleanupFinishedThreads
  exact lookupA_filterKeys_false _ (by simp [h])

theorem lookupA_cleanup_activeTx {s : PoolState} {t : String}
    (h : isStale s t = false) :
    lookupA (cleanupFinishedThreads s).activeTx t = lookupA s.activeTx t := by
  unfold cleanupFinishedThreads
  exact lookupA_filterKeys_true _ (by simp [h])

theorem lookupA_cleanup_activeTx_stale {s : PoolState} {t : String}
    (h : isStale s t = true) :
    lookupA (cleanupFinishedThreads s).activeTx t = none := by
  unfold cleanupFinishedThreads
  exact lookupA_filterKeys_false _ (by simp [h])

theorem lookupA_cleanup_threadRefs_stale {s : PoolState} {t : String}
    (h : isStale s t = true) :
    lookupA (cleanupFinishedThreads s).threadRefs t = none := by
  unfold cleanupFinishedThreads
  exact lookupA_filterKeys_false _ (by simp [h])

/-- A concrete pool state: thread `T` is alive and holds connection `c1`
inside an active transaction; thread `S` has terminated (its liveness
reference is expired) but still has the idle connection `c2` queued. -/
def staleDemoState : PoolState :=
  { used := ["c1"],
    avail := [("S", ["c2"])],
    connOwner := [("c1", "T"), ("c2", "S")],
    activeTx := [("T", "c1")],
    threadRefs := [("T", true), ("S", false)],
    counter := 2 }

/-- Claim C2 (counterexample): with thread `T` inside an active transaction,
`acquireConnection` by `T` does return the bound connection `c1`, but it does
NOT leave the idle queues unmodified — the stale-thread sweep that runs at
the top of `acquireConnection` drops dead thread `S`'s idle queue. -/
theorem C2_counterexample :
    lookupA staleDemoState.activeTx "T" = some "c1" ∧
    (acquireConnection "T" true 5 staleDemoState).1 = "c1" ∧
    (acquireConnection "T" true 5 staleDemoState).2.avail ≠
      staleDemoState.avail := by
  decide

/-- Claim C2 (amended): if thread `tid` has an active-transaction binding to
connection `c` (and its own liveness reference has not expired), then
`acquireConnection` by `tid` returns exactly `c`, leaves the in-use set
unchanged, keeps the binding, and modifies idle queues only through the
stale-thread sweep (the queue of every thread whose liveness reference has
not expired is untouched); `beginThreadTransaction` by `tid` returns `c`
with the pool state entirely unchanged. -/
theorem C2_transaction_affinity (s : PoolState) (tid c : String)
    (oOk tOk : Bool) (mc : Nat)
    (hsome : lookupA s.activeTx tid = some c)
    (hstale : isStale s tid = false) :
    (acquireConnection tid oOk mc s).1 = c ∧
    (acquireConnection tid oOk mc s).2.used = s.used ∧
    lookupA (acquireConnection tid oOk mc s).2.activeTx tid = some c ∧
    (∀ t, isStale s t = false →
      lookupA (acquireConnection tid oOk mc s).2.avail t = lookupA s.avail t) ∧
    beginThreadTransaction tid oOk tOk mc s = (c, s) := by
  have hl : lookupA (cleanupFinishedThreads s).activeTx tid = some c := by
    rw [lookupA_cleanup_activeTx hstale]
    exact hsome
  have hacq : acquireConnection tid oOk mc s =
      (c, { cleanupFinishedThreads s with
            threadRefs :=
              insertA (cleanupFinishedThreads s).threadRefs tid true }) := by
    unfold acquireConnection
    dsimp only
    rw [hl]
  have hbeg : beginThreadTransaction tid oOk tOk mc s = (c, s) := by
    unfold beginThreadTransaction
    rw [hsome]
  refine ⟨by rw [hacq], by rw [hacq]; rfl, ?_, ?_, hbeg⟩
  · rw [hacq]
    exact hl
  · intro t ht
    rw [hacq]
    exact lookupA_cleanup_avail ht

/-- Claim C2 (witness): the amended theorem evaluated on `staleDemoState`. -/
theorem C2_transaction_affinity_witness :
    (acquireConnection "T" true 5 staleDemoState).1 = "c1" ∧
    (acquireConnection "T" true 5 staleDemoState).2.used =
      staleDemoState.used ∧
    lookupA (acquireConnection "T" true 5 staleDemoState).2.avail "T" =
      lookupA staleDemoState.avail "T" ∧
    beginThreadTransaction "T" true true 5 staleDemoState =
      ("c1", staleDemoState) := by
  have h := C2_transaction_affinity staleDemoState "T" "c1" true true 5
    (by decide) (by decide)
  exact ⟨h.1, h.2.1, h.2.2.2.1 "T" (by decide), h.2.2.2.2⟩

theorem release_enqueue (s : PoolState) (tid name : String)
    (hmem : name ∈ s.used)
    (hown : lookupD s.connOwner name tid = tid)
    (hnotx : lookupD (cleanupFinishedThreads s).activeTx tid "" ≠ name) :
    releaseConnection tid name s =
      { cleanupFinishedThreads s with
        used := removeFirst s.used name,
        avail := enqueueA (cleanupFinishedThreads s).avail tid name } := by
  unfold releaseConnection
  dsimp only
  have hm : name ∈ (cleanupFinishedThreads s).used := hmem
  rw [if_pos hm]
  have ho : lookupD (cleanupFinishedThreads s).connOwner name tid = tid := hown
  rw [ho, if_neg hnotx]
  rfl

theorem commit_eq_of_some {s : PoolState} {tid c : String} (ok : Bool)
    (hsome : lookupA s.activeTx tid = some c) (hc : c ≠ "") :
    commitThreadTransaction tid ok s =
      (ok, releaseConnection tid c
        { s with activeTx := eraseKey s.activeTx tid }) := by
  unfold commitThreadTransaction
  dsimp only
  have hd : lookupD s.activeTx tid "" = c := by simp [lookupD, hsome]
  rw [hd, if_neg hc]

theorem rollback_eq_of_some {s : PoolState} {tid c : String} (ok : Bool)
    (hsome : lookupA s.activeTx tid = some c) (hc : c ≠ "") :
    rollbackThreadTransaction tid ok s =
      (ok, releaseConnection tid c
        { s with activeTx := eraseKey s.activeTx tid }) := by
  unfold rollbackThreadTransaction
  dsimp only
  have hd : lookupD s.activeTx tid "" = c := by simp [lookupD, hsome]
  rw [hd, if_neg hc]

theorem commit_eq_of_none {s : PoolState} {tid : String} (ok : Bool)
    (hnone : lookupA s.activeTx tid = none) :
    commitThreadTransaction tid ok s = (false, s) := by
  unfold commitThreadTransaction
  dsimp only
  have hd : lookupD s.activeTx tid "" = "" := by simp [lookupD, hnone]
  rw [hd, eraseKey_lookupA_none hnone]
  simp

theorem rollback_eq_of_none {s : PoolState} {tid : String} (ok : Bool)
    (hnone : lookupA s.activeTx tid = none) :
    rollbackThreadTransaction tid ok s = (false, s) := by
  unfold rollbackThreadTransaction
  dsimp only
  have hd : lookupD s.activeTx tid "" = "" := by simp [lookupD, hnone]
  rw [hd, eraseKey_lookupA_none hnone]
  simp

/-- Claim C3: `commitThreadTransaction` / `rollbackThreadTransaction` first
clear the calling thread's active-transaction binding; with no binding they
return `false` with the pool state unchanged; with a binding to `c` they
return exactly the native commit/rollback outcome (regardless of the release
outcome), leave the thread with no binding, remove `c` from the in-use set,
and route `c` through `releaseConnection` back onto its owning thread's idle
queue. -/
theorem C3_commit_rollback_contract (s : PoolState) (tid c : String)
    (ok : Bool) :
    (lookupA s.activeTx tid = none →
      commitThreadTransaction tid ok s = (false, s) ∧
      rollbackThreadTransaction tid ok s = (false, s)) ∧
    (lookupA s.activeTx tid = some c → c ≠ "" → c ∈ s.used →
     lookupD s.connOwner c tid = tid → isStale s tid = false →
      (commitThreadTransaction tid ok s).1 = ok ∧
      (rollbackThreadTransaction tid ok s).1 = ok ∧
      lookupA (commitThreadTransaction tid ok s).2.activeTx tid = none ∧
      (commitThreadTransaction tid ok s).2.used = removeFirst s.used c ∧
      lookupD (commitThreadTransaction tid ok s).2.avail tid [] =
        lookupD s.avail tid [] ++ [c] ∧
      (rollbackThreadTransaction tid ok s).2 =
        (commitThreadTransaction tid ok s).2) := by
  constructor
  · intro hnone
    exact ⟨commit_eq_of_none ok hnone, rollback_eq_of_none ok hnone⟩
  · intro hsome hc hmem hown hstale
    have hcom := commit_eq_of_some ok hsome hc
    have hrol := rollback_eq_of_some ok hsome hc
    set s1 : PoolState := { s with activeTx := eraseKey s.activeTx tid } with hs1
    have hstale1 : isStale s1 tid = false := hstale
    have htx1 : lookupA (cleanupFinishedThreads s1).activeTx tid = none := by
      have h2 : lookupA s1.activeTx tid = none := by
        show lookupA (eraseKey s.activeTx tid) tid = none
        exact lookupA_eraseKey_self _ _
      rw [lookupA_cleanup_activeTx hstale1, h2]
    have hnotx : lookupD (cleanupFinishedThreads s1).activeTx tid "" ≠ c := by
      simp only [lookupD, htx1, Option.getD]
      exact fun h => hc h.symm
    have hrel := release_enqueue s1 tid c hmem hown hnotx
    have havail1 : lookupA (cleanupFinishedThreads s1).avail tid =
        lookupA s.avail tid := by
      rw [lookupA_cleanup_avail hstale1]
    refine ⟨by rw [hcom], by rw [hrol], ?_, ?_, ?_, by rw [hcom, hrol]⟩
    · rw [hcom]
      show lookupA (releaseConnection tid c s1).activeTx tid = none
      rw [hrel]
      exact htx1
    · rw [hcom]
      show (releaseConnection tid c s1).used = removeFirst s.used c
      rw [hrel]
    · rw [hcom]
      show lookupD (releaseConnection tid c s1).avail tid [] =
        lookupD s.avail tid [] ++ [c]
      rw [hrel]
      show lookupD (enqueueA (cleanupFinishedThreads s1).avail tid c) tid [] =
        lookupD s.avail tid [] ++ [c]
      rw [lookupD_enqueueA_self]
      simp only [lookupD, havail1]

/-- Claim C3 (witness): the contract evaluated on `staleDemoState`, where
thread `T` holds `c1` in an active transaction, and on `initialPoolState`,
where no binding exists. -/
theorem C3_commit_rollback_contract_witness :
    (commitThreadTransaction "X" true initialPoolState =
      (false, initialPoolState)) ∧
    (commitThreadTransaction "T" true staleDemoState).1 = true ∧
    lookupA (commitThreadTransaction "T" true staleDemoState).2.activeTx
      "T" = none ∧
    (commitThreadTransaction "T" true staleDemoState).2.used =
      removeFirst staleDemoState.used "c1" ∧
    lookupD (commitThreadTransaction "T" true staleDemoState).2.avail
      "T" [] = lookupD staleDemoState.avail "T" [] ++ ["c1"] := by
  have h1 := (C3_commit_rollback_contract initialPoolState "X" "" true).1
    (by decide)
  have h2 := (C3_commit_rollback_contract staleDemoState "T" "c1" true).2
    (by decide) (by decide) (by decide) (by decide) (by decide)
  exact ⟨h1.1, h2.1, h2.2.2.1, h2.2.2.2.1, h2.2.2.2.2.1⟩

/-- Claim C4 (counterexample): releasing a connection that is not tracked as
in-use ("zz"), or one bound as its owner's active-transaction slot ("c1"),
does NOT leave the pool state unchanged: the stale-thread sweep at the top of
`releaseConnection` drops dead thread `S`'s idle queue in both cases. -/
theorem C4_counterexample :
    "zz" ∉ staleDemoState.used ∧
    releaseConnection "T" "zz" staleDemoState ≠ staleDemoState ∧
    "c1" ∈ staleDemoState.used ∧
    lookupD staleDemoState.activeTx
      (lookupD staleDemoState.connOwner "c1" "T") "" = "c1" ∧
    releaseConnection "T" "c1" staleDemoState ≠ staleDemoState := by
  decide

theorem release_enqueue_owner (s : PoolState) (tid name : String)
    (hmem : name ∈ s.used)
    (hnotx : lookupD (cleanupFinishedThreads s).activeTx
      (lookupD s.connOwner name tid) "" ≠ name) :
    releaseConnection tid name s =
      { cleanupFinishedThreads s with
        used := removeFirst s.used name,
        avail := enqueueA (cleanupFinishedThreads s).avail
          (lookupD s.connOwner name tid) name } := by
  have hm : name ∈ (cleanupFinishedThreads s).used := hmem
  have hn2 : lookupD (cleanupFinishedThreads s).activeTx
      (lookupD (cleanupFinishedThreads s).connOwner name tid) "" ≠ name := hnotx
  unfold releaseConnection
  dsimp only
  rw [if_pos hm, if_neg hn2]
  rfl

theorem release_noop_not_used (s : PoolState) (tid name : String)
    (hmem : name ∉ s.used) :
    releaseConnection tid name s = cleanupFinishedThreads s := by
  have hm : name ∉ (cleanupFinishedThreads s).used := hmem
  unfold releaseConnection
  dsimp only
  rw [if_neg hm]

theorem release_noop_activeTx (s : PoolState) (tid name : String)
    (hmem : name ∈ s.used)
    (htx : lookupD (cleanupFinishedThreads s).activeTx
      (lookupD s.connOwner name tid) "" = name) :
    releaseConnection tid name s = cleanupFinishedThreads s := by
  have hm : name ∈ (cleanupFinishedThreads s).used := hmem
  have ht2 : lookupD (cleanupFinishedThreads s).activeTx
      (lookupD (cleanupFinishedThreads s).connOwner name tid) "" = name := htx
  unfold releaseConnection
  dsimp only
  rw [if_pos hm, if_pos ht2]

/-- Claim C4 (amended): apart from the stale-thread sweep that
`releaseConnection` always runs first, releasing a connection that is not
tracked in the in-use set, or one bound as its owning thread's
active-transaction slot, leaves the pool state unchanged; in all other cases
it removes the connection from the in-use set and appends it to its owning
thread's idle queue and no other thread's queue, leaving the
active-transaction map, owner map and liveness map of the swept state
untouched. -/
theorem C4_release_frame (s : PoolState) (tid name : String) :
    (name ∉ s.used →
      releaseConnection tid name s = cleanupFinishedThreads s) ∧
    (name ∈ s.used →
      lookupD (cleanupFinishedThreads s).activeTx
        (lookupD s.connOwner name tid) "" = name →
      releaseConnection tid name s = cleanupFinishedThreads s) ∧
    (name ∈ s.used →
      lookupD (cleanupFinishedThreads s).activeTx
        (lookupD s.connOwner name tid) "" ≠ name →
      (releaseConnection tid name s).used = removeFirst s.used name ∧
      lookupD (releaseConnection tid name s).avail
        (lookupD s.connOwner name tid) [] =
        lookupD (cleanupFinishedThreads s).avail
          (lookupD s.connOwner name tid) [] ++ [name] ∧
      (∀ t, t ≠ lookupD s.connOwner name tid →
        lookupA (releaseConnection tid name s).avail t =
          lookupA (cleanupFinishedThreads s).avail t) ∧
      (releaseConnection tid name s).activeTx =
        (cleanupFinishedThreads s).activeTx ∧
      (releaseConnection tid name s).connOwner = s.connOwner ∧
      (releaseConnection tid name s).threadRefs =
        (cleanupFinishedThreads s).threadRefs) := by
  refine ⟨release_noop_not_used s tid name,
          release_noop_activeTx s tid name, ?_⟩
  intro hmem hnotx
  have hrel := release_enqueue_owner s tid name hmem hnotx
  refine ⟨by rw [hrel], by rw [hrel]; exact lookupD_enqueueA_self _ _ _,
          ?_, by rw [hrel], by rw [hrel]; rfl, by rw [hrel]⟩
  intro t ht
  rw [hrel]
  exact lookupA_enqueueA_ne _ _ ht

/-- A concrete pool state with connection `c1` checked out by live thread `T`
(no active transaction) and dead thread `S` still owning idle `c2`. -/
def busyDemoState : PoolState :=
  { used := ["c1"],
    avail := [("T", []), ("S", ["c2"])],
    connOwner := [("c1", "T"), ("c2", "S")],
    activeTx := [],
    threadRefs := [("T", true), ("S", false)],
    counter := 2 }

/-- Claim C4 (witness): the frame theorem evaluated on `busyDemoState`
(regular release) and on an untracked name. -/
theorem C4_release_frame_witness :
    releaseConnection "T" "zz" busyDemoState =
      cleanupFinishedThreads busyDemoState ∧
    (releaseConnection "T" "c1" busyDemoState).used =
      removeFirst busyDemoState.used "c1" ∧
    lookupD (releaseConnection "T" "c1" busyDemoState).avail
      (lookupD busyDemoState.connOwner "c1" "T") [] =
      lookupD (cleanupFinishedThreads busyDemoState).avail
        (lookupD busyDemoState.connOwner "c1" "T") [] ++ ["c1"] ∧
    lookupA (releaseConnection "T" "c1" busyDemoState).avail "Q" =
      lookupA (cleanupFinishedThreads busyDemoState).avail "Q" ∧
    (releaseConnection "T" "c1" busyDemoState).activeTx =
      (cleanupFinishedThreads busyDemoState).activeTx := by
  have h1 := (C4_release_frame busyDemoState "T" "zz").1 (by decide)
  have h2 := (C4_release_frame busyDemoState "T" "c1").2.2 (by decide)
    (by decide)
  exact ⟨h1, h2.1, h2.2.1, h2.2.2.1 "Q" (by decide), h2.2.2.2.1⟩

/-- Claim C5 (counterexample): thread `S` is stale in `staleDemoState`, yet
`beginThreadTransaction` leaves `S`'s idle slot `c2` queued, and
`forceCloseIdleConnections` keeps `S`'s liveness bookkeeping entry — neither
operation runs the stale-thread sweep. -/
theorem C5_counterexample :
    isStale staleDemoState "S" = true ∧
    lookupA (beginThreadTransaction "T" true true 5 staleDemoState).2.avail
      "S" = some ["c2"] ∧
    lookupA (forceCloseIdleConnections staleDemoState).2.threadRefs "S" =
      some false ∧
    lookupA (forceCloseIdleConnections staleDemoState).2.avail "S" =
      some [] := by
  decide

theorem acquire_stale_gone (s : PoolState) {tid t : String} (oOk : Bool)
    (mc : Nat) (hstale : isStale s t = true) (hne : t ≠ tid) :
    lookupA (acquireConnection tid oOk mc s).2.avail t = none ∧
    lookupA (acquireConnection tid oOk mc s).2.activeTx t = none ∧
    lookupA (acquireConnection tid oOk mc s).2.threadRefs t = none := by
  have hav := lookupA_cleanup_avail_stale hstale
  have htx := lookupA_cleanup_activeTx_stale hstale
  have hrf := lookupA_cleanup_threadRefs_stale hstale
  have hrf2 : lookupA
      (insertA (cleanupFinishedThreads s).threadRefs tid true) t = none := by
    rw [lookupA_insertA_ne _ _ hne]
    exact hrf
  unfold acquireConnection
  dsimp only
  split
  · exact ⟨hav, htx, hrf2⟩
  · split
    · refine ⟨?_, htx, hrf2⟩
      rw [lookupA_insertA_ne _ _ hne, lookupA_ensureKey_ne _ hne]
      exact hav
    · have hek : lookupA (ensureKey (cleanupFinishedThreads s).avail tid) t =
          none := by
        rw [lookupA_ensureKey_ne _ hne]
        exact hav
      split
      · exact ⟨hek, htx, hrf2⟩
      · split
        · exact ⟨hek, htx, hrf2⟩
        · exact ⟨hek, htx, hrf2⟩

theorem release_stale_gone (s : PoolState) {tid name t : String}
    (hstale : isStale s t = true)
    (hown : lookupD s.connOwner name tid ≠ t) :
    lookupA (releaseConnection tid name s).avail t = none ∧
    lookupA (releaseConnection tid name s).activeTx t = none ∧
    lookupA (releaseConnection tid name s).threadRefs t = none := by
  have hav := lookupA_cleanup_avail_stale hstale
  have htx := lookupA_cleanup_activeTx_stale hstale
  have hrf := lookupA_cleanup_threadRefs_stale hstale
  have ho : lookupD (cleanupFinishedThreads s).connOwner name tid ≠ t := hown
  unfold releaseConnection
  dsimp only
  by_cases hmem : name ∈ (cleanupFinishedThreads s).used
  · rw [if_pos hmem]
    by_cases hguard : lookupD (cleanupFinishedThreads s).activeTx
        (lookupD (cleanupFinishedThreads s).connOwner name tid) "" = name
    · rw [if_pos hguard]
      exact ⟨hav, htx, hrf⟩
    · rw [if_neg hguard]
      refine ⟨?_, htx, hrf⟩
      rw [lookupA_enqueueA_ne _ _ (Ne.symm ho)]
      exact hav
  · rw [if_neg hmem]
    exact ⟨hav, htx, hrf⟩

theorem begin_threadRefs_eq (s : PoolState) (tid : String) (oOk tOk : Bool)
    (mc : Nat) :
    (beginThreadTransaction tid oOk tOk mc s).2.threadRefs = s.threadRefs := by
  have hs := (beginAcquireSlot_spec tid oOk mc s).2.1
  unfold beginThreadTransaction
  dsimp only
  split
  · rfl
  · split
    · exact hs
    · split
      · exact hs
      · exact hs

/-- Claim C5 (amended): the stale-thread sweep runs at the top of
`acquireConnection` and `releaseConnection` — after either call an expired
thread (other than the caller, whose liveness entry `acquireConnection`
refreshes, and other than the owner a released connection is re-enqueued to)
retains no idle-queue, active-transaction or liveness entry — but it is NOT
invoked by `beginThreadTransaction` or `forceCloseIdleConnections`, which
leave the liveness map (and for `forceCloseIdleConnections` also the
active-transaction map) completely unchanged;
`commitThreadTransaction`/`rollbackThreadTransaction` reach the sweep only
inside their internal `releaseConnection` call. -/
theorem C5_sweep_sites (s : PoolState) (tid name t : String) (oOk tOk : Bool)
    (mc : Nat) (hstale : isStale s t = true) (hne : t ≠ tid)
    (hown : lookupD s.connOwner name tid ≠ t) :
    lookupA (acquireConnection tid oOk mc s).2.avail t = none ∧
    lookupA (acquireConnection tid oOk mc s).2.activeTx t = none ∧
    lookupA (acquireConnection tid oOk mc s).2.threadRefs t = none ∧
    lookupA (releaseConnection tid name s).avail t = none ∧
    lookupA (releaseConnection tid name s).activeTx t = none ∧
    lookupA (releaseConnection tid name s).threadRefs t = none ∧
    (beginThreadTransaction tid oOk tOk mc s).2.threadRefs = s.threadRefs ∧
    (forceCloseIdleConnections s).2.threadRefs = s.threadRefs ∧
    (forceCloseIdleConnections s).2.activeTx = s.activeTx := by
  obtain ⟨ha1, ha2, ha3⟩ := acquire_stale_gone s oOk mc hstale hne
  obtain ⟨hr1, hr2, hr3⟩ := release_stale_gone s hstale hown
  exact ⟨ha1, ha2, ha3, hr1, hr2, hr3,
    begin_threadRefs_eq s tid oOk tOk mc, rfl, rfl⟩

/-- Claim C5 (witness): the amended theorem evaluated on `staleDemoState`
with stale thread `S` and caller `T`. -/
theorem C5_sweep_sites_witness :
    lookupA (acquireConnection "T" true 5 staleDemoState).2.avail "S" =
      none ∧
    lookupA (acquireConnection "T" true 5 staleDemoState).2.threadRefs "S" =
      none ∧
    lookupA (releaseConnection "T" "c1" staleDemoState).avail "S" = none ∧
    (beginThreadTransaction "T" true true 5 staleDemoState).2.threadRefs =
      staleDemoState.threadRefs ∧
    (forceCloseIdleConnections staleDemoState).2.threadRefs =
      staleDemoState.threadRefs := by
  have h := C5_sweep_sites staleDemoState "T" "c1" "S" true true 5
    (by decide) (by decide) (by decide)
  exact ⟨h.1, h.2.2.1, h.2.2.2.1, h.2.2.2.2.2.2.1, h.2.2.2.2.2.2.2.1⟩

theorem begin_txfail_eq (s : PoolState) (tid : String) (oOk : Bool) (mc : Nat)
    (hno : lookupA s.activeTx tid = none)
    (hname : (beginAcquireSlot tid oOk mc s).1 ≠ "") :
    beginThreadTransaction tid oOk false mc s =
      ("", { (beginAcquireSlot tid oOk mc s).2 with
             used := removeFirst (beginAcquireSlot tid oOk mc s).2.used
               (beginAcquireSlot tid oOk mc s).1,
             avail := enqueueA (beginAcquireSlot tid oOk mc s).2.avail tid
               (beginAcquireSlot tid oOk mc s).1 }) := by
  unfold beginThreadTransaction
  rw [hno]
  dsimp only
  rw [if_neg hname]
  simp

/-- Claim C7: when `beginThreadTransaction` (with no prior binding) acquires
a connection but the native begin-transaction call fails, the connection is
removed from the in-use set, enqueued back on the calling thread's idle
queue, no active-transaction binding is recorded, and the empty string is
returned. -/
theorem C7_begin_native_failure (s : PoolState) (tid : String) (oOk : Bool)
    (mc : Nat)
    (hno : lookupA s.activeTx tid = none)
    (hname : (beginAcquireSlot tid oOk mc s).1 ≠ "")
    (hfree : (beginAcquireSlot tid oOk mc s).1 ∉ s.used) :
    (beginThreadTransaction tid oOk false mc s).1 = "" ∧
    (beginThreadTransaction tid oOk false mc s).2.used = s.used ∧
    lookupA (beginThreadTransaction tid oOk false mc s).2.activeTx tid =
      none ∧
    lookupD (beginThreadTransaction tid oOk false mc s).2.avail tid [] =
      lookupD (beginAcquireSlot tid oOk mc s).2.avail tid [] ++
        [(beginAcquireSlot tid oOk mc s).1] := by
  have hs := beginAcquireSlot_spec tid oOk mc s
  have heq := begin_txfail_eq s tid oOk mc hno hname
  refine ⟨by rw [heq], ?_, ?_, ?_⟩
  · rw [heq]
    show removeFirst (beginAcquireSlot tid oOk mc s).2.used
      (beginAcquireSlot tid oOk mc s).1 = s.used
    rw [hs.2.2 hname]
    exact removeFirst_insertSet_of_not_mem hfree
  · rw [heq]
    show lookupA (beginAcquireSlot tid oOk mc s).2.activeTx tid = none
    rw [hs.1]
    exact hno
  · rw [heq]
    exact lookupD_enqueueA_self _ _ _

/-- Claim C7 (witness): from the empty pool, thread `T` creates `conn_T_1`,
the native begin fails, and the connection lands idle on `T`'s queue with no
binding recorded. -/
theorem C7_begin_native_failure_witness :
    (beginThreadTransaction "T" true false 5 initialPoolState).1 = "" ∧
    (beginThreadTransaction "T" true false 5 initialPoolState).2.used =
      initialPoolState.used ∧
    lookupA (beginThreadTransaction "T" true false 5
      initialPoolState).2.activeTx "T" = none ∧
    lookupD (beginThreadTransaction "T" true false 5
      initialPoolState).2.avail "T" [] =
      lookupD (beginAcquireSlot "T" true 5 initialPoolState).2.avail "T" []
        ++ [(beginAcquireSlot "T" true 5 initialPoolState).1] :=
  C7_begin_native_failure initialPoolState "T" true 5 (by decide)
    (by decide) (by decide)

/-!
Query statistics (`BaseDatabaseManager::DatabaseStats`,
`recordQueryStats`, `resetStatistics`)

Timings are modelled in exact arithmetic (`ℚ`), per the numerical claim
about the incremental-average recurrence.
-/
structure DatabaseStats where
  totalQueries : Nat
  successfulQueries : Nat
  failedQueries : Nat
  avgQueryTime : ℚ
deriving DecidableEq

/-- The statistics record as default-constructed / after `resetStatistics`
(BaseDatabaseManager.cpp 717-721). -/
def freshStats : DatabaseStats :=
  { totalQueries := 0, successfulQueries := 0, failedQueries := 0,
    avgQueryTime := 0 }

/-- Embeds `BaseDatabaseManager::recordQueryStats` (BaseDatabaseManager.cpp
800-816): bump the counters, then update the running average via
`avg = (avg * (total - 1) + t) / total` with the already-incremented total. -/
def recordQueryStats (success : Bool) (queryTime : ℚ)
    (st : DatabaseStats) : DatabaseStats :=
  let total := st.totalQueries + 1
  { totalQueries := total,
    successfulQueries :=
      if success then st.successfulQueries + 1 else st.successfulQueries,
    failedQueries :=
      if success then st.failedQueries else st.failedQueries + 1,
    avgQueryTime :=
      (st.avgQueryTime * ((total : ℚ) - 1) + queryTime) / (total : ℚ) }

/-- Record a whole sequence of (success, timing) observations in order. -/
def recordMany (ts : List (Bool × ℚ)) (st : DatabaseStats) : DatabaseStats :=
  ts.foldl (fun acc p => recordQueryStats p.1 p.2 acc) st

theorem recordMany_total_and_sum (ts : List (Bool × ℚ)) :
    ∀ st : DatabaseStats,
      (recordMany ts st).totalQueries = st.totalQueries + ts.length ∧
      (recordMany ts st).avgQueryTime *
          ((st.totalQueries + ts.length : Nat) : ℚ) =
        st.avgQueryTime * (st.totalQueries : ℚ) + (ts.map (fun p => p.2)).sum := by
  induction ts with
  | nil =>
      intro st
      simp [recordMany]
  | cons p rest ih =>
      intro st
      have hstep := ih (recordQueryStats p.1 p.2 st)
      have hrm : recordMany (p :: rest) st =
          recordMany rest (recordQueryStats p.1 p.2 st) := rfl
      have htot : (recordQueryStats p.1 p.2 st).totalQueries =
          st.totalQueries + 1 := rfl
      have havg : (recordQueryStats p.1 p.2 st).avgQueryTime *
          ((st.totalQueries + 1 : Nat) : ℚ) =
          st.avgQueryTime * (st.totalQueries : ℚ) + p.2 := by
        show (st.avgQueryTime * (((st.totalQueries + 1 : Nat) : ℚ) - 1) + p.2) /
            ((st.totalQueries + 1 : Nat) : ℚ) *
            ((st.totalQueries + 1 : Nat) : ℚ) =
          st.avgQueryTime * (st.totalQueries : ℚ) + p.2
        have hne : ((st.totalQueries + 1 : Nat) : ℚ) ≠ 0 := by
          push_cast
          positivity
        rw [div_mul_cancel₀ _ hne]
        push_cast
        ring
      constructor
      · rw [hrm, hstep.1, htot]
        simp [List.length_cons]
        omega
      · rw [hrm]
        have h2 := hstep.2
        rw [htot] at h2
        have hlen : st.totalQueries + 1 + rest.length =
            st.totalQueries + (rest.length + 1) := by omega
        rw [hlen] at h2
        rw [List.length_cons, h2, havg]
        simp [List.map_cons, List.sum_cons]
        ring

/-- Claim C9: after any number N ≥ 1 of `recordQueryStats` calls since
construction or the last `resetStatistics`, with individual timings t1..tN,
the stored average query time equals the arithmetic mean (t1+...+tN)/N in
exact arithmetic, independently of the order in which the timings were
recorded. -/
theorem C9_running_average (ts : List (Bool × ℚ)) (h : ts ≠ []) :
    (recordMany ts freshStats).avgQueryTime =
      (ts.map (fun p => p.2)).sum / (ts.length : ℚ) ∧
    ∀ ts2 : List (Bool × ℚ),
      (ts2.map (fun p => p.2)).Perm (ts.map (fun p => p.2)) →
      (recordMany ts2 freshStats).avgQueryTime =
        (recordMany ts freshStats).avgQueryTime := by
  have key : ∀ us : List (Bool × ℚ), us ≠ [] →
      (recordMany us freshStats).avgQueryTime =
        (us.map (fun p => p.2)).sum / (us.length : ℚ) := by
    intro us hus
    have hk := (recordMany_total_and_sum us freshStats).2
    have h0 : freshStats.totalQueries = 0 := rfl
    have h0a : freshStats.avgQueryTime = 0 := rfl
    rw [h0, h0a] at hk
    simp only [Nat.zero_add, Nat.cast_ofNat, zero_mul, zero_add] at hk
    have hlen : ((us.length : Nat) : ℚ) ≠ 0 := by
      have : us.length ≠ 0 := fun hc => hus (List.length_eq_zero.mp hc)
      exact_mod_cast this
    field_simp
    rw [mul_comm] at hk
    linarith [hk]
  constructor
  · exact key ts h
  · intro ts2 hperm
    have hlen2 : ts2.length = ts.length := by
      have := hperm.length_eq
      simpa using this
    have hne2 : ts2 ≠ [] := by
      intro hc
      subst hc
      simp at hlen2
      exact h (List.length_eq_zero.mp hlen2.symm)
    rw [key ts2 hne2, key ts h, hperm.sum_eq, hlen2]

/-- Claim C9 (witness): two timings 3 and 5 give average 4, in either
order. -/
theorem C9_running_average_witness :
    (recordMany [(true, 3), (false, 5)] freshStats).avgQueryTime =
      ([(true, 3), (false, 5)].map (fun p => p.2)).sum / 2 ∧
    (recordMany [(false, 5), (true, 3)] freshStats).avgQueryTime =
      (recordMany [(true, 3), (false, 5)] freshStats).avgQueryTime := by
  have h := C9_running_average [(true, 3), (false, 5)] (by decide)
  exact ⟨h.1, h.2 [(false, 5), (true, 3)] (by decide)⟩

/-!
Embedding of `BaseDatabaseManager::executeInTransaction`
(BaseDatabaseManager.h 225-261)

The template's compile-time dispatch on the operation's return type is
embedded as a classifier `sig : α → Option Bool` extracting the "did this
operation logically succeed" signal: `boolSignal` for `bool` returns,
`successFieldSignal` for types with a `.success` member
(`has_success_field`), and `noSignal` for all other types. A throwing
operation is an `Except.error`; `dflt` is the default-constructed
`ReturnType{}` (`false` for `bool`). The events list records which of
operation / commitTransaction / rollbackTransaction were invoked, in
order. -/
inductive TxEvent where
  | opInvoked
  | committed
  | rolledBack
deriving DecidableEq

def boolSignal : Bool → Option Bool := fun b => some b

def successFieldSignal {α : Type} (success : α → Bool) : α → Option Bool :=
  fun r => some (success r)

def noSignal {α : Type} : α → Option Bool := fun _ => none

def executeInTransaction {α ε : Type} (beginOk : Bool)
    (operation : Except ε α) (sig : α → Option Bool) (dflt : α) :
    Except ε α × List TxEvent :=
  if beginOk = false then (Except.ok dflt, [])
  else
    match operation with
    | Except.error e =>
        (Except.error e, [TxEvent.opInvoked, TxEvent.rolledBack])
    | Except.ok r =>
        match sig r with
        | some true => (Except.ok r, [TxEvent.opInvoked, TxEvent.committed])
        | some false =>
            (Except.ok r, [TxEvent.opInvoked, TxEvent.rolledBack])
        | none => (Except.ok r, [TxEvent.opInvoked, TxEvent.committed])

/-- Claim C8: after a successful `beginTransaction`,
`executeInTransaction` rolls back and rethrows when the operation throws;
for a `bool` result it commits on `true` and rolls back on `false`; for a
result type with a `success` field that field decides commit versus
rollback; any other result type always commits; and in every non-throwing
case the operation's result is returned unchanged. -/
theorem C8_executeInTransaction_policy {α ε : Type} (e : ε)
    (sig : α → Option Bool) (dflt r : α) (b : Bool) (succ : α → Bool) :
    executeInTransaction true (Except.error e) sig dflt =
      (Except.error e, [TxEvent.opInvoked, TxEvent.rolledBack]) ∧
    executeInTransaction true (Except.ok b : Except ε Bool) boolSignal false =
      (Except.ok b, [TxEvent.opInvoked,
        if b then TxEvent.committed else TxEvent.rolledBack]) ∧
    executeInTransaction true (Except.ok r : Except ε α)
        (successFieldSignal succ) dflt =
      (Except.ok r, [TxEvent.opInvoked,
        if succ r then TxEvent.committed else TxEvent.rolledBack]) ∧
    executeInTransaction true (Except.ok r : Except ε α) noSignal dflt =
      (Except.ok r, [TxEvent.opInvoked, TxEvent.committed]) := by
  refine ⟨rfl, ?_, ?_, rfl⟩
  · cases b <;> rfl
  · unfold executeInTransaction successFieldSignal
    cases h : succ r <;> simp [h]

/-- Claim C10: when `beginTransaction` fails, `executeInTransaction` never
invokes the operation, issues no commit and no rollback, and returns `false`
for a `bool` return type and a default-constructed value otherwise. -/
theorem C10_begin_failure_default {α ε : Type} (operation : Except ε α)
    (sig : α → Option Bool) (dflt : α) (opb : Except ε Bool) :
    executeInTransaction false operation sig dflt = (Except.ok dflt, []) ∧
    executeInTransaction false opb boolSignal false =
      (Except.ok false, []) := by
  exact ⟨rfl, rfl⟩

/-!
Embedding of `BaseDatabaseManager::optimizeDatabase` (BaseDatabaseManager.cpp 580-634)

`dbOpen` is `m_database.isOpen()`, `wal` is `m_config.enableWAL`,
`walOk`/`vacOk`/`anaOk` are the outcomes of the three `query.exec` calls and
`tw`/`tv`/`ta` their elapsed timings; `pool` is the optional
`m_connectionPool`. The outcome records the return value, the maintenance
statements actually executed (in order), the pool state afterwards, and the
updated statistics.
-/
inductive OptAction where
  | walCheckpoint (ok : Bool)
  | vacuum (ok : Bool)
  | analyze (ok : Bool)
deriving DecidableEq

structure OptOutcome where
  ret : Bool
  actions : List OptAction
  pool : Option PoolState
  stats : DatabaseStats
deriving DecidableEq

def optimizeDatabase (dbOpen wal walOk vacOk anaOk : Bool) (tw tv ta : ℚ)
    (pool : Option PoolState) (st : DatabaseStats) : OptOutcome :=
  if dbOpen = false then ⟨false, [], pool, st⟩
  else
    let pool2 := pool.map (fun p => (forceCloseIdleConnections p).2)
    if 0 < (pool2.map usedCount).getD 0 then ⟨false, [], pool2, st⟩
    else
      let st1 := if wal then recordQueryStats walOk tw st else st
      let st2 := recordQueryStats vacOk tv st1
      let st3 := recordQueryStats anaOk ta st2
      let acts := (if wal then [OptAction.walCheckpoint walOk] else []) ++
        [OptAction.vacuum vacOk, OptAction.analyze anaOk]
      ⟨vacOk && anaOk, acts, pool2, st3⟩

/-- A pool state with one idle connection owned by live thread `T` and no
connection in use. -/
def idleOnlyState : PoolState :=
  { used := [],
    avail := [("T", ["c1"])],
    connOwner := [("c1", "T")],
    activeTx := [],
    threadRefs := [("T", true)],
    counter := 1 }

/-- Claim C6 (counterexample): with the main database connection not open,
`optimizeDatabase` returns false without closing the idle pooled connection
and without running VACUUM or ANALYZE, even though no pooled connection is
in use and all native calls would succeed — contradicting the claim, which
promises idle closure and a `true` return in this situation. -/
theorem C6_counterexample :
    usedCount idleOnlyState = 0 ∧
    (optimizeDatabase false true true true true 1 1 1 (some idleOnlyState)
      freshStats).ret = false ∧
    (optimizeDatabase false true true true true 1 1 1 (some idleOnlyState)
      freshStats).actions = [] ∧
    availableCount ((optimizeDatabase false true true true true 1 1 1
      (some idleOnlyState) freshStats).pool.getD initialPoolState) = 1 := by
  decide

theorem usedCount_forceClose (p : PoolState) :
    usedCount (forceCloseIdleConnections p).2 = usedCount p := rfl

/-- Claim C6 (amended): provided the main database connection is open (when
it is not, `optimizeDatabase` returns false immediately, leaving both the
pool and the statistics untouched), `optimizeDatabase` first closes all idle
pooled connections; if any pooled connection is still in-use afterward it
returns false without executing WAL checkpoint, VACUUM or ANALYZE; otherwise
it runs WAL checkpoint (only if WAL is enabled), then VACUUM, then ANALYZE,
each exactly once in that order with a statistics record for each, and
returns true exactly when both VACUUM and ANALYZE succeed (a checkpoint
failure alone does not make it return false). -/
theorem C6_optimize_behavior (dbOpen wal walOk vacOk anaOk : Bool)
    (tw tv ta : ℚ) (pool : Option PoolState) (st : DatabaseStats) :
    (dbOpen = false →
      optimizeDatabase dbOpen wal walOk vacOk anaOk tw tv ta pool st =
        ⟨false, [], pool, st⟩) ∧
    (dbOpen = true → ∀ p, pool = some p → 0 < usedCount p →
      optimizeDatabase dbOpen wal walOk vacOk anaOk tw tv ta pool st =
        ⟨false, [], some (forceCloseIdleConnections p).2, st⟩ ∧
      availableCount (forceCloseIdleConnections p).2 = 0) ∧
    (dbOpen = true → (∀ p, pool = some p → usedCount p = 0) →
      (optimizeDatabase dbOpen wal walOk vacOk anaOk tw tv ta pool
          st).actions =
        (if wal then [OptAction.walCheckpoint walOk] else []) ++
          [OptAction.vacuum vacOk, OptAction.analyze anaOk] ∧
      (optimizeDatabase dbOpen wal walOk vacOk anaOk tw tv ta pool st).ret =
        (vacOk && anaOk) ∧
      (optimizeDatabase dbOpen wal walOk vacOk anaOk tw tv ta pool
          st).stats.totalQueries =
        st.totalQueries +
          (optimizeDatabase dbOpen wal walOk vacOk anaOk tw tv ta pool
            st).actions.length ∧
      (optimizeDatabase dbOpen wal walOk vacOk anaOk tw tv ta pool st).pool =
        pool.map (fun p => (forceCloseIdleConnections p).2) ∧
      (∀ p, pool = some p →
        availableCount (forceCloseIdleConnections p).2 = 0)) := by
  refine ⟨?_, ?_, ?_⟩
  · intro h
    subst h
    rfl
  · intro h p hp hused
    subst h
    subst hp
    unfold optimizeDatabase
    dsimp only [Option.map, Option.getD]
    rw [if_neg (by simp)]
    rw [if_pos (show 0 < usedCount (forceCloseIdleConnections p).2 from hused)]
    exact ⟨rfl, sumAvail_map_empty p.avail⟩
  · intro h hz
    subst h
    have hcond : ¬(0 < ((pool.map
        (fun p => (forceCloseIdleConnections p).2)).map usedCount).getD 0) := by
      cases pool with
      | none => simp
      | some p =>
          simp only [Option.map, Option.getD]
          rw [usedCount_forceClose, hz p rfl]
          omega
    unfold optimizeDatabase
    rw [if_neg (by simp)]
    dsimp only
    rw [if_neg hcond]
    refine ⟨rfl, rfl, ?_, rfl, ?_⟩
    · cases wal with
      | true =>
          show st.totalQueries + 1 + 1 + 1 = st.totalQueries +
            ((if true then [OptAction.walCheckpoint walOk] else []) ++
              [OptAction.vacuum vacOk, OptAction.analyze anaOk]).length
          simp
      | false =>
          show st.totalQueries + 1 + 1 = st.totalQueries +
            ((if false then [OptAction.walCheckpoint walOk] else []) ++
              [OptAction.vacuum vacOk, OptAction.analyze anaOk]).length
          simp
    · intro p hp
      cases hp
      exact sumAvail_map_empty p.avail

/-- Claim C6 (witness): the amended theorem evaluated with the database not
open, with a busy pool, and with an idle-only pool. -/
theorem C6_optimize_behavior_witness :
    optimizeDatabase false true true true true 1 1 1 (some idleOnlyState)
      freshStats = ⟨false, [], some idleOnlyState, freshStats⟩ ∧
    optimizeDatabase true true true true true 1 1 1 (some busyDemoState)
      freshStats =
      ⟨false, [], some (forceCloseIdleConnections busyDemoState).2,
        freshStats⟩ ∧
    (optimizeDatabase true true false true true 1 1 1 (some idleOnlyState)
      freshStats).actions =
      [OptAction.walCheckpoint false, OptAction.vacuum true,
       OptAction.analyze true] ∧
    (optimizeDatabase true true false true true 1 1 1 (some idleOnlyState)
      freshStats).ret = true ∧
    (optimizeDatabase true true false true true 1 1 1 (some idleOnlyState)
      freshStats).stats.totalQueries = 3 := by
  have h1 := (C6_optimize_behavior false true true true true 1 1 1
    (some idleOnlyState) freshStats).1 rfl
  have h2 := ((C6_optimize_behavior true true true true true 1 1 1
    (some busyDemoState) freshStats).2.1 rfl busyDemoState rfl
    (by decide)).1
  have h3 := (C6_optimize_behavior true true false true true 1 1 1
    (some idleOnlyState) freshStats).2.2 rfl
    (fun p hp => by cases hp; rfl)
  refine ⟨h1, h2, ?_, ?_, ?_⟩
  · rw [h3.1]
    rfl
  · rw [h3.2.1]
    rfl
  · rw [h3.2.2.1, h3.1]
    rfl
